import Mathlib

/-!
# Verification of the `alfador` Quaternion module

A shallow embedding, over the real numbers, of `src/Quaternion.js`: a
quaternion value type with four fields `w, x, y, z`, Hamilton
multiplication, conjugation/inversion, normalization, vector rotation,
conversion to a row-major 3x3 matrix, axis-angle construction and
spherical linear interpolation (slerp).  JavaScript double arithmetic is
modelled by exact real arithmetic; `Math.sqrt`, `Math.sin`, `Math.cos`
and `Math.acos` become `Real.sqrt`, `Real.sin`, `Real.cos` and
`Real.arccos`, and the JavaScript remainder operator `%` (truncated
division, sign of the dividend) becomes `jsMod` below.

The companion `Vec3` type is only available through the interface the
specification gives for it (field access and `normalize`), and the
`Mat33` collaborator only as a container for nine row-major entries.
-/

namespace Alfador

open scoped Classical

noncomputable section

/-- A quaternion: four real fields `w` (scalar part) and `x, y, z`
(vector part), as in `function Quaternion` of `Quaternion.js`. -/
structure Quaternion where
  w : ℝ
  x : ℝ
  y : ℝ
  z : ℝ
  deriving DecidableEq

/-- The companion 3-component vector type (`Vec3.js`, external collaborator). -/
structure Vec3 where
  x : ℝ
  y : ℝ
  z : ℝ
  deriving DecidableEq

/-- The companion 3x3 matrix type, a flat row-major sequence of nine
numbers: entry `mRC` is row `R`, column `C` (`Mat33.js`, external
collaborator; the constructor just stores the nine values). -/
structure Mat33 where
  m00 : ℝ
  m01 : ℝ
  m02 : ℝ
  m10 : ℝ
  m11 : ℝ
  m12 : ℝ
  m20 : ℝ
  m21 : ℝ
  m22 : ℝ
  deriving DecidableEq

namespace Quaternion

/-- `Quaternion.identity()`: the quaternion `(1, 0, 0, 0)`. -/
def identity : Quaternion := ⟨1, 0, 0, 0⟩

/-- `Quaternion.prototype.mult`: the Hamilton product, transcribed
field by field from lines 68–71 of `Quaternion.js` (`this` is `a`,
`that` is `b`). -/
def mult (a b : Quaternion) : Quaternion :=
  ⟨(b.w * a.w) - (b.x * a.x) - (b.y * a.y) - (b.z * a.z),
   a.y * b.z - a.z * b.y + a.w * b.x + a.x * b.w,
   a.z * b.x - a.x * b.z + a.w * b.y + a.y * b.w,
   a.x * b.y - a.y * b.x + a.w * b.z + a.z * b.w⟩

/-- `Quaternion.prototype.conjugate`: `(w, -x, -y, -z)`. -/
def conjugate (q : Quaternion) : Quaternion := ⟨q.w, -q.x, -q.y, -q.z⟩

/-- `Quaternion.prototype.inverse`: delegates to `conjugate`. -/
def inverse (q : Quaternion) : Quaternion := conjugate q

/-- `Quaternion.prototype.rotate`: embed the vector as the pure
quaternion `(0, v.x, v.y, v.z)`, compute `this.mult(vq).mult(this.inverse())`
and keep the vector part. -/
def rotate (q : Quaternion) (v : Vec3) : Vec3 :=
  let vq : Quaternion := ⟨0, v.x, v.y, v.z⟩
  let r := mult (mult q vq) (inverse q)
  ⟨r.x, r.y, r.z⟩

/-- `Quaternion.prototype.matrix`: the nine row-major entries of
lines 107–110 of `Quaternion.js`. -/
def matrix (q : Quaternion) : Mat33 :=
  ⟨1 - 2 * (q.y * q.y) - 2 * (q.z * q.z), 2 * (q.x * q.y) + 2 * (q.z * q.w),
     2 * (q.x * q.z) - 2 * (q.y * q.w),
   2 * (q.x * q.y) - 2 * (q.z * q.w), 1 - 2 * (q.x * q.x) - 2 * (q.z * q.z),
     2 * (q.y * q.z) + 2 * (q.x * q.w),
   2 * (q.x * q.z) + 2 * (q.y * q.w), 2 * (q.y * q.z) - 2 * (q.x * q.w),
     1 - 2 * (q.x * q.x) - 2 * (q.y * q.y)⟩

/-- The squared magnitude `x² + y² + z² + w²` (the argument of
`Math.sqrt` in `Quaternion.prototype.normalize`). -/
def norm2 (q : Quaternion) : ℝ :=
  q.x * q.x + q.y * q.y + q.z * q.z + q.w * q.w

/-- `Quaternion.prototype.normalize`: divide each field by
`Math.sqrt(x²+y²+z²+w²)` when that magnitude is non-zero, otherwise
return `new Quaternion()` — the identity. -/
def normalize (q : Quaternion) : Quaternion :=
  if Real.sqrt (norm2 q) ≠ 0 then
    ⟨q.w / Real.sqrt (norm2 q), q.x / Real.sqrt (norm2 q),
     q.y / Real.sqrt (norm2 q), q.z / Real.sqrt (norm2 q)⟩
  else identity

/-- `Quaternion.prototype.toArray`: `[w, x, y, z]`. -/
def toArray (q : Quaternion) : List ℝ := [q.w, q.x, q.y, q.z]

/-- The four-field dot product `cosHalfTheta` computed at the top of
`Quaternion.slerp` (`a` is `from`, `b` is `to`). -/
def cosHalfTheta (a b : Quaternion) : ℝ :=
  (a.w * b.w) + (a.x * b.x) + (a.y * b.y) + (a.z * b.z)

/-- `Quaternion.slerp(from, to, t)` (`a` is `from`, `b` is `to`):
return `from` when `|cosHalfTheta| ≥ 1`; return the unweighted
per-field average when `|sinHalfTheta| < 0.001`; otherwise the
`sin`-weighted combination with weights `ratioA`, `ratioB`. -/
def slerp (a b : Quaternion) (t : ℝ) : Quaternion :=
  if 1 ≤ |cosHalfTheta a b| then
    ⟨a.w, a.x, a.y, a.z⟩
  else if |Real.sqrt (1 - cosHalfTheta a b * cosHalfTheta a b)| < 0.001 then
    ⟨a.w * 0.5 + b.w * 0.5, a.x * 0.5 + b.x * 0.5,
     a.y * 0.5 + b.y * 0.5, a.z * 0.5 + b.z * 0.5⟩
  else
    ⟨a.w * (Real.sin ((1 - t) * Real.arccos (cosHalfTheta a b)) /
        Real.sqrt (1 - cosHalfTheta a b * cosHalfTheta a b)) +
      b.w * (Real.sin (t * Real.arccos (cosHalfTheta a b)) /
        Real.sqrt (1 - cosHalfTheta a b * cosHalfTheta a b)),
     a.x * (Real.sin ((1 - t) * Real.arccos (cosHalfTheta a b)) /
        Real.sqrt (1 - cosHalfTheta a b * cosHalfTheta a b)) +
      b.x * (Real.sin (t * Real.arccos (cosHalfTheta a b)) /
        Real.sqrt (1 - cosHalfTheta a b * cosHalfTheta a b)),
     a.y * (Real.sin ((1 - t) * Real.arccos (cosHalfTheta a b)) /
        Real.sqrt (1 - cosHalfTheta a b * cosHalfTheta a b)) +
      b.y * (Real.sin (t * Real.arccos (cosHalfTheta a b)) /
        Real.sqrt (1 - cosHalfTheta a b * cosHalfTheta a b)),
     a.z * (Real.sin ((1 - t) * Real.arccos (cosHalfTheta a b)) /
        Real.sqrt (1 - cosHalfTheta a b * cosHalfTheta a b)) +
      b.z * (Real.sin (t * Real.arccos (cosHalfTheta a b)) /
        Real.sqrt (1 - cosHalfTheta a b * cosHalfTheta a b))⟩

end Quaternion

namespace Vec3

/-- The squared Euclidean magnitude of a `Vec3`. -/
def vnorm2 (v : Vec3) : ℝ := v.x * v.x + v.y * v.y + v.z * v.z

/-- Modelled from the spec: `Vec3.prototype.normalize` of the missing
`Vec3.js` collaborator — "a `normalize()` operation returning a
unit-length copy (or a zero vector if input has zero length)". -/
def vnormalize (v : Vec3) : Vec3 :=
  if Real.sqrt (vnorm2 v) ≠ 0 then
    ⟨v.x / Real.sqrt (vnorm2 v), v.y / Real.sqrt (vnorm2 v),
     v.z / Real.sqrt (vnorm2 v)⟩
  else ⟨0, 0, 0⟩

end Vec3

/-- Truncation toward zero, as performed by JavaScript integer
division inside the `%` operator. -/
def jsTrunc (r : ℝ) : ℤ := if 0 ≤ r then ⌊r⌋ else ⌈r⌉

/-- The JavaScript remainder operator `a % b`: `a - b * trunc(a / b)`
(the result carries the sign of the dividend). -/
def jsMod (a b : ℝ) : ℝ := a - b * (jsTrunc (a / b) : ℝ)

namespace Quaternion

/-- The angle wrapping performed on line 139 of `Quaternion.js`:
`angle > 0 ? angle % (2*Math.PI) : angle % (-2*Math.PI)`. -/
def wrapAngle (angle : ℝ) : ℝ :=
  if 0 < angle then jsMod angle (2 * Real.pi) else jsMod angle (-(2 * Real.pi))

/-- `Quaternion.rotationRadians(angle, axis)`: wrap the angle, normalize
the axis, build `(cos(angle/2), axis*sin(angle/2))` and normalize it. -/
def rotationRadians (angle : ℝ) (axis : Vec3) : Quaternion :=
  let a := wrapAngle angle
  let ax := Vec3.vnormalize axis
  normalize
    ⟨Real.cos (a / 2), ax.x * Real.sin (a / 2),
     ax.y * Real.sin (a / 2), ax.z * Real.sin (a / 2)⟩

/-- `Quaternion.rotationDegrees(angle, axis)`: convert to radians and
delegate to `rotationRadians`. -/
def rotationDegrees (angle : ℝ) (axis : Vec3) : Quaternion :=
  rotationRadians (angle * (Real.pi / 180)) axis

end Quaternion

/-- A JavaScript aggregate as the one-argument constructor sees it:
possibly-absent record fields `fw, fx, fy, fz` (properties `w, x, y, z`)
and possibly-absent indexed elements `e0, e1, e2, e3` (properties
`[0], [1], [2], [3]`); `none` stands for `undefined`. -/
structure Aggregate where
  fw : Option ℝ
  fx : Option ℝ
  fy : Option ℝ
  fz : Option ℝ
  e0 : Option ℝ
  e1 : Option ℝ
  e2 : Option ℝ
  e3 : Option ℝ

/-- JavaScript `o || k` for a possibly-undefined numeric property `o`:
the property's value when present and truthy (non-zero), otherwise `k`. -/
def jsOrElse (o : Option ℝ) (k : ℝ) : ℝ :=
  match o with
  | some v => if v ≠ 0 then v else k
  | none => k

namespace Quaternion

/-- The `case 1` branch of the constructor: `w` from the property `w`
when defined, else element `0` when defined, else `1.0`; each of
`x, y, z` via the `argument.x || argument[1] || 0.0` truthiness chains. -/
def fromAggregate (a : Aggregate) : Quaternion :=
  ⟨match a.fw with
    | some v => v
    | none =>
      match a.e0 with
      | some v => v
      | none => 1,
   jsOrElse a.fx (jsOrElse a.e1 0),
   jsOrElse a.fy (jsOrElse a.e2 0),
   jsOrElse a.fz (jsOrElse a.e3 0)⟩

/-- The aggregate a JavaScript numeric array presents: indexed elements
only, no `w, x, y, z` properties. -/
def arrayAgg (l : List ℝ) : Aggregate :=
  ⟨none, none, none, none, l[0]?, l[1]?, l[2]?, l[3]?⟩

/-- The constructor applied to a list of numeric arguments, switching on
`arguments.length` as `Quaternion.js` does: one argument is read as an
aggregate (a bare number exposes neither `w, x, y, z` nor indexed
properties), four arguments are the components, and every other count
falls to the `default` branch producing `(1, 0, 0, 0)`. -/
def mkQuaternionNums (args : List ℝ) : Quaternion :=
  match args with
  | [_a] => fromAggregate ⟨none, none, none, none, none, none, none, none⟩
  | [w, x, y, z] => ⟨w, x, y, z⟩
  | _ => ⟨1, 0, 0, 0⟩

end Quaternion

/-- Row-vector application `v ↦ v · M` of a row-major `Mat33`:
component `i` of the result is `Σ_j v_j · M[j][i]`. -/
def mulRowVec (v : Vec3) (m : Mat33) : Vec3 :=
  ⟨v.x * m.m00 + v.y * m.m10 + v.z * m.m20,
   v.x * m.m01 + v.y * m.m11 + v.z * m.m21,
   v.x * m.m02 + v.y * m.m12 + v.z * m.m22⟩

end

open Quaternion Vec3

/-! ## Helper lemmas -/

/-- The squared magnitude vanishes exactly on the all-zero quaternion. -/
theorem norm2_eq_zero_iff (q : Quaternion) :
    norm2 q = 0 ↔ q = ⟨0, 0, 0, 0⟩ := by
  constructor
  · intro h
    simp only [norm2] at h
    obtain ⟨w, x, y, z⟩ := q
    simp only [Quaternion.mk.injEq]
    refine ⟨?_, ?_, ?_, ?_⟩ <;> nlinarith [sq_nonneg w, sq_nonneg x, sq_nonneg y, sq_nonneg z]
  · intro h
    subst h
    simp [norm2]

/-- The squared magnitude is nonnegative. -/
theorem norm2_nonneg (q : Quaternion) : 0 ≤ norm2 q := by
  simp only [norm2]
  linarith [mul_self_nonneg q.x, mul_self_nonneg q.y,
    mul_self_nonneg q.z, mul_self_nonneg q.w]

/-- The JavaScript chain `o || 0` yields the stored value when the
property is present (a present `0` still yields `0`) and `0` otherwise. -/
theorem jsOrElse_zero (o : Option ℝ) : jsOrElse o 0 = o.getD 0 := by
  cases o with
  | none => rfl
  | some v =>
    by_cases hv : v = 0
    · simp [jsOrElse, hv]
    · simp [jsOrElse, hv]

/-! ## Claim theorems -/

/-- C4: for every unit-length quaternion `q`, `q.mult(q.inverse())` is
the identity quaternion `(1, 0, 0, 0)` (exactly, in the real-arithmetic
model), where `inverse(q)` equals `conjugate(q) = (w, -x, -y, -z)`. -/
theorem mult_inverse_eq_identity (q : Quaternion) (h : norm2 q = 1) :
    mult q (inverse q) = identity := by
  simp only [norm2] at h
  simp only [mult, inverse, conjugate, identity, Quaternion.mk.injEq]
  refine ⟨by linear_combination h, by ring, by ring, by ring⟩

/-- C4 witness: at the concrete unit quaternion `(3/5, 4/5, 0, 0)`. -/
theorem mult_inverse_eq_identity_witness :
    norm2 ⟨3 / 5, 4 / 5, 0, 0⟩ = 1 ∧
      mult ⟨3 / 5, 4 / 5, 0, 0⟩ (inverse ⟨3 / 5, 4 / 5, 0, 0⟩) = identity :=
  ⟨by norm_num [norm2], mult_inverse_eq_identity ⟨3 / 5, 4 / 5, 0, 0⟩ (by norm_num [norm2])⟩

/-- C5: `a.mult(b)` is the Hamilton product with exactly the component
formulas of `Quaternion.js`, and composing `a.mult(b)` applies rotation
`b` first and then `a`: rotating any vector by `a.mult(b)` equals
rotating it by `b` and then by `a`. -/
theorem mult_formula_and_composition :
    (∀ a b : Quaternion, mult a b =
      ⟨b.w * a.w - b.x * a.x - b.y * a.y - b.z * a.z,
       a.y * b.z - a.z * b.y + a.w * b.x + a.x * b.w,
       a.z * b.x - a.x * b.z + a.w * b.y + a.y * b.w,
       a.x * b.y - a.y * b.x + a.w * b.z + a.z * b.w⟩) ∧
    (∀ (a b : Quaternion) (v : Vec3),
      rotate (mult a b) v = rotate a (rotate b v)) := by
  constructor
  · intro a b
    rfl
  · intro a b v
    simp only [rotate, mult, inverse, conjugate, Vec3.mk.injEq]
    refine ⟨by ring, by ring, by ring⟩

/-- C9: normalization is idempotent: `normalize(normalize(q))` equals
`normalize(q)` for every quaternion `q`. -/
theorem normalize_idempotent (q : Quaternion) :
    Quaternion.normalize (Quaternion.normalize q) = Quaternion.normalize q := by
  by_cases h : Real.sqrt (norm2 q) = 0
  · have h1 : Quaternion.normalize q = identity := by
      simp [Quaternion.normalize, h]
    rw [h1]
    have h2 : norm2 identity = 1 := by norm_num [norm2, identity]
    simp [Quaternion.normalize, h2]
  · set m := Real.sqrt (norm2 q) with hmdef
    have hm0 : m ≠ 0 := h
    have hsq : m * m = norm2 q := Real.mul_self_sqrt (norm2_nonneg q)
    have h1 : Quaternion.normalize q = ⟨q.w / m, q.x / m, q.y / m, q.z / m⟩ := by
      simp only [Quaternion.normalize, if_pos h]
    have h2 : norm2 ⟨q.w / m, q.x / m, q.y / m, q.z / m⟩ = 1 := by
      simp only [norm2] at hsq ⊢
      field_simp [hm0]
      linear_combination (-1 : ℝ) * hsq
    rw [h1]
    simp [Quaternion.normalize, h2]

/-- C10: calling the constructor with a numeric argument count other
than exactly `1` or exactly `4` ignores every supplied argument and
produces the identity quaternion `(1, 0, 0, 0)`. -/
theorem constructor_default_identity (args : List ℝ)
    (h1 : args.length ≠ 1) (h4 : args.length ≠ 4) :
    mkQuaternionNums args = identity := by
  match args with
  | [] => rfl
  | [_a] => exact absurd rfl h1
  | [_a, _b] => rfl
  | [_a, _b, _c] => rfl
  | [_a, _b, _c, _d] => exact absurd rfl h4
  | _a :: _b :: _c :: _d :: _e :: _rest => rfl

/-- C10 witness: two numeric arguments produce the identity. -/
theorem constructor_default_identity_witness :
    ([(2 : ℝ), 3].length ≠ 1 ∧ [(2 : ℝ), 3].length ≠ 4) ∧
      mkQuaternionNums [2, 3] = identity :=
  ⟨⟨by norm_num, by norm_num⟩,
   constructor_default_identity [2, 3] (by norm_num) (by norm_num)⟩

/-- C3: `normalize(q)` divides each of the four fields by the magnitude
`sqrt(w²+x²+y²+z²)` whenever `q` is not the all-zero quaternion (the
only input of magnitude exactly zero), and returns the identity
quaternion `(1, 0, 0, 0)` on the all-zero quaternion; it is a total
function on the real-quaternion model. -/
theorem normalize_div_or_identity (q : Quaternion) :
    (q ≠ ⟨0, 0, 0, 0⟩ →
      Quaternion.normalize q =
        ⟨q.w / Real.sqrt (norm2 q), q.x / Real.sqrt (norm2 q),
         q.y / Real.sqrt (norm2 q), q.z / Real.sqrt (norm2 q)⟩) ∧
    (q = ⟨0, 0, 0, 0⟩ → Quaternion.normalize q = identity) := by
  constructor
  · intro hq
    have hn2 : norm2 q ≠ 0 := fun h0 => hq ((norm2_eq_zero_iff q).mp h0)
    have hs : Real.sqrt (norm2 q) ≠ 0 := by
      intro h0
      exact hn2 ((Real.sqrt_eq_zero (norm2_nonneg q)).mp h0)
    simp only [Quaternion.normalize, if_pos hs]
  · intro hq
    subst hq
    have hs : Real.sqrt (norm2 ⟨0, 0, 0, 0⟩) = 0 := by
      norm_num [norm2]
    simp [Quaternion.normalize, hs]

/-- C3 witness: the non-zero case at `(2, 0, 0, 0)` and the zero case at
`(0, 0, 0, 0)`. -/
theorem normalize_div_or_identity_witness :
    ((⟨2, 0, 0, 0⟩ : Quaternion) ≠ ⟨0, 0, 0, 0⟩ ∧
      Quaternion.normalize ⟨2, 0, 0, 0⟩ =
        ⟨2 / Real.sqrt (norm2 ⟨2, 0, 0, 0⟩), 0 / Real.sqrt (norm2 ⟨2, 0, 0, 0⟩),
         0 / Real.sqrt (norm2 ⟨2, 0, 0, 0⟩), 0 / Real.sqrt (norm2 ⟨2, 0, 0, 0⟩)⟩) ∧
      Quaternion.normalize ⟨0, 0, 0, 0⟩ = identity :=
  ⟨⟨by norm_num, (normalize_div_or_identity ⟨2, 0, 0, 0⟩).1 (by norm_num)⟩,
   (normalize_div_or_identity ⟨0, 0, 0, 0⟩).2 rfl⟩

/-- C7: one-aggregate construction — for a record (no indexed elements)
each of `w, x, y, z` is copied when present (a present `0` is honored)
with independent defaults `1, 0, 0, 0`; for an array-like (no record
fields) elements `0, 1, 2, 3` play the same role; and
`Quaternion([1,2,3,4]).toArray()` returns `[1, 2, 3, 4]`. -/
theorem from_aggregate_spec :
    (∀ a : Aggregate, a.e0 = none → a.e1 = none → a.e2 = none → a.e3 = none →
      fromAggregate a = ⟨a.fw.getD 1, a.fx.getD 0, a.fy.getD 0, a.fz.getD 0⟩) ∧
    (∀ a : Aggregate, a.fw = none → a.fx = none → a.fy = none → a.fz = none →
      fromAggregate a = ⟨a.e0.getD 1, a.e1.getD 0, a.e2.getD 0, a.e3.getD 0⟩) ∧
    toArray (fromAggregate (arrayAgg [1, 2, 3, 4])) = [1, 2, 3, 4] := by
  have hnone : ∀ k : ℝ, jsOrElse none k = k := fun _ => rfl
  refine ⟨?_, ?_, ?_⟩
  · rintro ⟨fw, fx, fy, fz, e0, e1, e2, e3⟩ h0 h1 h2 h3
    dsimp only at h0 h1 h2 h3
    subst h0; subst h1; subst h2; subst h3
    simp only [fromAggregate, hnone, jsOrElse_zero, Quaternion.mk.injEq]
    cases fw <;> simp
  · rintro ⟨fw, fx, fy, fz, e0, e1, e2, e3⟩ h0 h1 h2 h3
    dsimp only at h0 h1 h2 h3
    subst h0; subst h1; subst h2; subst h3
    simp only [fromAggregate, hnone, jsOrElse_zero, Quaternion.mk.injEq]
    cases e0 <;> simp
  · norm_num [toArray, fromAggregate, arrayAgg, jsOrElse]

/-- C7 witness: a record aggregate with a present-but-zero `x` field is
honored as `0`, and the `[1,2,3,4]` array round-trips through
`toArray`. -/
theorem from_aggregate_spec_witness :
    fromAggregate ⟨some 2, some 0, some 5, none, none, none, none, none⟩ =
        ⟨2, 0, 5, 0⟩ ∧
      fromAggregate ⟨none, none, none, none, some 0, some 7, none, none⟩ =
        ⟨0, 7, 0, 0⟩ ∧
      toArray (fromAggregate (arrayAgg [1, 2, 3, 4])) = [1, 2, 3, 4] :=
  ⟨from_aggregate_spec.1 ⟨some 2, some 0, some 5, none, none, none, none, none⟩
      rfl rfl rfl rfl,
   from_aggregate_spec.2.1 ⟨none, none, none, none, some 0, some 7, none, none⟩
      rfl rfl rfl rfl,
   from_aggregate_spec.2.2⟩

/-- C1: `matrix(q)` lists row-major the nine entries of the standard
quaternion-to-matrix formula; for unit `q` the matrix is equivalent to
`q` in that applying it to a row vector performs exactly the rotation
`rotate q`, and `identity().matrix()` is the 3x3 identity matrix
`[1,0,0, 0,1,0, 0,0,1]`. -/
theorem matrix_rotation_correct :
    matrix identity = ⟨1, 0, 0, 0, 1, 0, 0, 0, 1⟩ ∧
    ∀ q : Quaternion, norm2 q = 1 → ∀ v : Vec3,
      mulRowVec v (matrix q) = rotate q v := by
  constructor
  · norm_num [matrix, identity]
  · intro q h v
    simp only [norm2] at h
    simp only [mulRowVec, matrix, rotate, mult, inverse, conjugate, Vec3.mk.injEq]
    refine ⟨?_, ?_, ?_⟩
    · linear_combination (-v.x) * h
    · linear_combination (-v.y) * h
    · linear_combination (-v.z) * h

/-- C1 witness: at the unit quaternion `(3/5, 4/5, 0, 0)` and the vector
`(1, 2, 3)`. -/
theorem matrix_rotation_correct_witness :
    matrix identity = ⟨1, 0, 0, 0, 1, 0, 0, 0, 1⟩ ∧
      norm2 ⟨3 / 5, 4 / 5, 0, 0⟩ = 1 ∧
      mulRowVec ⟨1, 2, 3⟩ (matrix ⟨3 / 5, 4 / 5, 0, 0⟩) =
        rotate ⟨3 / 5, 4 / 5, 0, 0⟩ ⟨1, 2, 3⟩ :=
  ⟨matrix_rotation_correct.1, by norm_num [norm2],
   matrix_rotation_correct.2 ⟨3 / 5, 4 / 5, 0, 0⟩ (by norm_num [norm2]) ⟨1, 2, 3⟩⟩

/-- C6: for every unit-length quaternion `q` and every vector `v`, the
Euclidean magnitude of `rotate(q, v)` equals the magnitude of `v`
(exactly, in the real-arithmetic model). -/
theorem rotate_preserves_magnitude (q : Quaternion) (v : Vec3)
    (h : norm2 q = 1) :
    Real.sqrt (vnorm2 (rotate q v)) = Real.sqrt (vnorm2 v) := by
  have key : vnorm2 (rotate q v) = norm2 q * norm2 q * vnorm2 v := by
    simp only [vnorm2, rotate, mult, inverse, conjugate, norm2]
    ring
  rw [key, h, one_mul, one_mul]

/-- C6 witness: at the unit quaternion `(3/5, 4/5, 0, 0)` and the vector
`(1, 2, 3)`. -/
theorem rotate_preserves_magnitude_witness :
    norm2 ⟨3 / 5, 4 / 5, 0, 0⟩ = 1 ∧
      Real.sqrt (vnorm2 (rotate ⟨3 / 5, 4 / 5, 0, 0⟩ ⟨1, 2, 3⟩)) =
        Real.sqrt (vnorm2 ⟨1, 2, 3⟩) :=
  ⟨by norm_num [norm2],
   rotate_preserves_magnitude ⟨3 / 5, 4 / 5, 0, 0⟩ ⟨1, 2, 3⟩ (by norm_num [norm2])⟩

/-- For a positive dividend and positive divisor, the JavaScript
remainder lies in `[0, b)`. -/
theorem jsMod_pos_range (a b : ℝ) (ha : 0 < a) (hb : 0 < b) :
    0 ≤ jsMod a b ∧ jsMod a b < b := by
  have hq : 0 ≤ a / b := le_of_lt (div_pos ha hb)
  have hmod : jsMod a b = b * Int.fract (a / b) := by
    simp only [jsMod, jsTrunc, if_pos hq, Int.fract]
    field_simp
  constructor
  · rw [hmod]
    exact mul_nonneg hb.le (Int.fract_nonneg _)
  · rw [hmod]
    calc b * Int.fract (a / b) < b * 1 :=
          (mul_lt_mul_left hb).mpr (Int.fract_lt_one _)
    _ = b := mul_one b

/-- For a non-positive dividend and negative divisor, the JavaScript
remainder lies in `(b, 0]`. -/
theorem jsMod_nonpos_range (a b : ℝ) (ha : a ≤ 0) (hb : b < 0) :
    b < jsMod a b ∧ jsMod a b ≤ 0 := by
  have hq : 0 ≤ a / b := div_nonneg_of_nonpos ha hb.le
  have hb0 : b ≠ 0 := ne_of_lt hb
  have hmod : jsMod a b = b * Int.fract (a / b) := by
    simp only [jsMod, jsTrunc, if_pos hq, Int.fract]
    field_simp
  constructor
  · rw [hmod]
    calc b = b * 1 := (mul_one b).symm
    _ < b * Int.fract (a / b) := by
          have := Int.fract_lt_one (a / b)
          exact (mul_lt_mul_left_of_neg hb).mpr this
  · rw [hmod]
    exact mul_nonpos_of_nonpos_of_nonneg hb.le (Int.fract_nonneg _)

/-- C8: `rotationRadians(angle, axis)` is the normalization of
`(cos(a/2), axis'.x·sin(a/2), axis'.y·sin(a/2), axis'.z·sin(a/2))` where
`axis'` is the unit-normalized axis and `a` is the angle wrapped
sign-preservingly into `(-2π, 2π)` — into `[0, 2π)` for positive angles
and into `(-2π, 0]` for non-positive ones — and `rotationDegrees`
equals `rotationRadians` at `angle·π/180`. -/
theorem rotation_radians_spec (angle : ℝ) (axis : Vec3) :
    rotationRadians angle axis =
      Quaternion.normalize
        ⟨Real.cos (wrapAngle angle / 2),
         (vnormalize axis).x * Real.sin (wrapAngle angle / 2),
         (vnormalize axis).y * Real.sin (wrapAngle angle / 2),
         (vnormalize axis).z * Real.sin (wrapAngle angle / 2)⟩ ∧
    (0 < angle → 0 ≤ wrapAngle angle ∧ wrapAngle angle < 2 * Real.pi) ∧
    (angle ≤ 0 → -(2 * Real.pi) < wrapAngle angle ∧ wrapAngle angle ≤ 0) ∧
    rotationDegrees angle axis = rotationRadians (angle * (Real.pi / 180)) axis := by
  refine ⟨rfl, ?_, ?_, rfl⟩
  · intro hpos
    have h := jsMod_pos_range angle (2 * Real.pi) hpos (by positivity)
    simpa [wrapAngle, if_pos hpos] using h
  · intro hneg
    have hb : -(2 * Real.pi) < 0 := by
      have := Real.pi_pos
      linarith
    have h := jsMod_nonpos_range angle (-(2 * Real.pi)) hneg hb
    have hnp : ¬ 0 < angle := not_lt.mpr hneg
    simpa [wrapAngle, if_neg hnp] using h

/-- C8 witness: at angles `5` and `-5` with axis `(1, 0, 0)`. -/
theorem rotation_radians_spec_witness :
    rotationRadians 5 ⟨1, 0, 0⟩ =
        Quaternion.normalize
          ⟨Real.cos (wrapAngle 5 / 2),
           (vnormalize ⟨1, 0, 0⟩).x * Real.sin (wrapAngle 5 / 2),
           (vnormalize ⟨1, 0, 0⟩).y * Real.sin (wrapAngle 5 / 2),
           (vnormalize ⟨1, 0, 0⟩).z * Real.sin (wrapAngle 5 / 2)⟩ ∧
      (0 ≤ wrapAngle 5 ∧ wrapAngle 5 < 2 * Real.pi) ∧
      (-(2 * Real.pi) < wrapAngle (-5) ∧ wrapAngle (-5) ≤ 0) ∧
      rotationDegrees 5 ⟨1, 0, 0⟩ = rotationRadians (5 * (Real.pi / 180)) ⟨1, 0, 0⟩ :=
  ⟨(rotation_radians_spec 5 ⟨1, 0, 0⟩).1,
   (rotation_radians_spec 5 ⟨1, 0, 0⟩).2.1 (by norm_num),
   (rotation_radians_spec (-5) ⟨1, 0, 0⟩).2.2.1 (by norm_num),
   (rotation_radians_spec 5 ⟨1, 0, 0⟩).2.2.2⟩

/-- C2 counterexample: `a = (1,0,0,0)` and
`b = (-3999999/4000001, 4000/4000001, 0, 0)` are unit quaternions,
unequal and not antipodal, yet `slerp(a, b, 0)` is not `a` — the
dot product is `-3999999/4000001`, so `sinHalfTheta = 4000/4000001 <
0.001` and the averaging branch fires, leaving a `w` component below
`1/2` where `a.w = 1`. -/
theorem slerp_boundary_counterexample :
    norm2 ⟨1, 0, 0, 0⟩ = 1 ∧
    norm2 ⟨-(3999999 / 4000001), 4000 / 4000001, 0, 0⟩ = 1 ∧
    (⟨1, 0, 0, 0⟩ : Quaternion) ≠ ⟨-(3999999 / 4000001), 4000 / 4000001, 0, 0⟩ ∧
    (⟨1, 0, 0, 0⟩ : Quaternion) ≠
      ⟨-(-(3999999 / 4000001)), -(4000 / 4000001), -0, -0⟩ ∧
    slerp ⟨1, 0, 0, 0⟩ ⟨-(3999999 / 4000001), 4000 / 4000001, 0, 0⟩ 0 ≠
      ⟨1, 0, 0, 0⟩ ∧
    (slerp ⟨1, 0, 0, 0⟩ ⟨-(3999999 / 4000001), 4000 / 4000001, 0, 0⟩ 0).w <
      1 / 2 := by
  have hc : cosHalfTheta ⟨1, 0, 0, 0⟩ ⟨-(3999999 / 4000001), 4000 / 4000001, 0, 0⟩ =
      -(3999999 / 4000001) := by
    norm_num [cosHalfTheta]
  have h1 : ¬ (1 : ℝ) ≤ |(-(3999999 / 4000001) : ℝ)| := by
    rw [abs_of_nonpos (by norm_num)]
    norm_num
  have hsq : Real.sqrt (1 - (-(3999999 / 4000001) : ℝ) * (-(3999999 / 4000001))) =
      4000 / 4000001 := by
    rw [show (1 - (-(3999999 / 4000001) : ℝ) * (-(3999999 / 4000001))) =
        ((4000 / 4000001 : ℝ)) ^ 2 by norm_num]
    exact Real.sqrt_sq (by norm_num)
  have h2 : |Real.sqrt (1 - (-(3999999 / 4000001) : ℝ) * (-(3999999 / 4000001)))| <
      0.001 := by
    rw [hsq, abs_of_nonneg (by norm_num)]
    norm_num
  have hs : slerp ⟨1, 0, 0, 0⟩ ⟨-(3999999 / 4000001), 4000 / 4000001, 0, 0⟩ 0 =
      ⟨1 / 4000001, 2000 / 4000001, 0, 0⟩ := by
    simp only [slerp, hc, if_neg h1, if_pos h2]
    norm_num
  refine ⟨by norm_num [norm2], by norm_num [norm2], by norm_num, by norm_num,
    ?_, ?_⟩
  · rw [hs]
    norm_num
  · rw [hs]
    norm_num

/-- C2 (amended): for unit quaternions `a, b` that are not equal, not
antipodal, and whose `sinHalfTheta = sqrt(1 - dot(a,b)²)` is at least
`0.001` (so the near-antipodal averaging fallback does not fire),
`slerp(a, b, 0) = a` and `slerp(a, b, 1) = b` exactly. -/
theorem slerp_boundary_amended (a b : Quaternion)
    (ha : norm2 a = 1) (hb : norm2 b = 1) (hne : a ≠ b)
    (hanti : a ≠ ⟨-b.w, -b.x, -b.y, -b.z⟩)
    (hsin : 0.001 ≤ Real.sqrt (1 - cosHalfTheta a b * cosHalfTheta a b)) :
    slerp a b 0 = a ∧ slerp a b 1 = b := by
  set c := cosHalfTheta a b with hc
  set s := Real.sqrt (1 - c * c) with hsdef
  have hspos : 0 < s := lt_of_lt_of_le (by norm_num) hsin
  have hcc : 0 < 1 - c * c := by
    by_contra hle
    push_neg at hle
    have : s = 0 := by
      rw [hsdef]
      exact Real.sqrt_eq_zero_of_nonpos hle
    linarith
  have habs : ¬ (1 : ℝ) ≤ |c| := by
    rw [not_le, ← Real.sqrt_one]
    have h1 : |c| = Real.sqrt (c ^ 2) := (Real.sqrt_sq_eq_abs c).symm
    rw [h1]
    apply Real.sqrt_lt_sqrt (sq_nonneg c)
    nlinarith
  have hns : ¬ |s| < 0.001 := by
    rw [abs_of_nonneg (le_of_lt hspos)]
    exact not_lt.mpr hsin
  have hsin_arccos : Real.sin (Real.arccos c) = s := by
    rw [Real.sin_arccos, hsdef]
    norm_num [sq]
  have hsne : s ≠ 0 := ne_of_gt hspos
  constructor
  · simp only [slerp, ← hc, if_neg habs, ← hsdef, if_neg hns]
    obtain ⟨aw, ax, ay, az⟩ := a
    simp only [Quaternion.mk.injEq]
    rw [show ((1 : ℝ) - 0) * Real.arccos c = Real.arccos c by ring,
      show (0 : ℝ) * Real.arccos c = 0 by ring, Real.sin_zero, hsin_arccos]
    field_simp
  · simp only [slerp, ← hc, if_neg habs, ← hsdef, if_neg hns]
    obtain ⟨bw, bx, by', bz⟩ := b
    simp only [Quaternion.mk.injEq]
    rw [show ((1 : ℝ) - 1) * Real.arccos c = 0 by ring,
      show (1 : ℝ) * Real.arccos c = Real.arccos c by ring, Real.sin_zero,
      hsin_arccos]
    field_simp

/-- C2 witness: the amended boundary property at `a = (1,0,0,0)` and
`b = (0,1,0,0)`. -/
theorem slerp_boundary_amended_witness :
    norm2 ⟨1, 0, 0, 0⟩ = 1 ∧ norm2 ⟨0, 1, 0, 0⟩ = 1 ∧
      (0.001 : ℝ) ≤ Real.sqrt (1 -
        cosHalfTheta ⟨1, 0, 0, 0⟩ ⟨0, 1, 0, 0⟩ *
          cosHalfTheta ⟨1, 0, 0, 0⟩ ⟨0, 1, 0, 0⟩) ∧
      slerp ⟨1, 0, 0, 0⟩ ⟨0, 1, 0, 0⟩ 0 = ⟨1, 0, 0, 0⟩ ∧
      slerp ⟨1, 0, 0, 0⟩ ⟨0, 1, 0, 0⟩ 1 = ⟨0, 1, 0, 0⟩ :=
  ⟨by norm_num [norm2], by norm_num [norm2],
   by norm_num [cosHalfTheta, Real.sqrt_one],
   (slerp_boundary_amended ⟨1, 0, 0, 0⟩ ⟨0, 1, 0, 0⟩ (by norm_num [norm2])
      (by norm_num [norm2]) (by norm_num) (by norm_num)
      (by norm_num [cosHalfTheta, Real.sqrt_one])).1,
   (slerp_boundary_amended ⟨1, 0, 0, 0⟩ ⟨0, 1, 0, 0⟩ (by norm_num [norm2])
      (by norm_num [norm2]) (by norm_num) (by norm_num)
      (by norm_num [cosHalfTheta, Real.sqrt_one])).2⟩

end Alfador
